import Mathlib

/-!
Verification development for the xml-parser repository: a schema-driven
streaming XML extractor (tokenizer adapter feeding a context-tracking stack
machine that projects each closed record element through a field schema) plus
the server-side helpers countFirstLevelToysAndHeader and mergeDocumentHeader.

Embedding notes.  The schema types follow src/src/types/schema.ts and the
element context type follows ParsedElement in src/src/types/xml.ts.  The
extractor itself (src/parsers/xmlParser.ts, exporting parseXML and
parseXMLStream) is absent from the repository snapshot; only its tests,
types and callers are present, so its definitions below are modelled from
the specification (sections 3, 4.1 and 4.2) and marked accordingly.  The
server helpers are embedded from src/src/server.ts, which is present.
-/

namespace XmlParserModel

/-- Attribute list of an XML element: an ordered name-to-value mapping,
as exposed by the tokenizer adapter (attributes are never consumed by the
extractor). -/
abbrev Attrs := List (String × String)

/-- Lower-casing of a tag name, character by character, mirroring
JavaScript's toLowerCase as used at the tokenizer boundary and in the
server's sax handlers. -/
def lowerName (s : String) : String := ⟨s.data.map Char.toLower⟩

/-- Modelled from the spec: the normalized XML lexical events of section 4.1
produced by the tokenizer adapter (the adapter and the external sax tokenizer
it wraps are not part of src/).  `errorEv` and `endEv` are the two terminal
events. -/
inductive XmlEvent where
  | openTag (name : String) (attributes : Attrs)
  | text (content : String)
  | closeTag (name : String)
  | errorEv (cause : String)
  | endEv
deriving DecidableEq, Repr

/-- Element context, embedding `ParsedElement` from src/src/types/xml.ts:
tag name, attributes, accumulated text (optional `text?: string` in the
source, modelled as the accumulated string which is empty while no text
event has arrived), and the ordered flat list `children: ParsedElement[]`
of completed child contexts. -/
inductive ParsedElement where
  | mk (name : String) (attributes : Attrs) (text : String)
       (children : List ParsedElement)

/-- Tag name of an element context. -/
def ParsedElement.name : ParsedElement → String
  | .mk n _ _ _ => n

/-- Attributes of an element context. -/
def ParsedElement.attributes : ParsedElement → Attrs
  | .mk _ a _ _ => a

/-- Accumulated text of an element context. -/
def ParsedElement.text : ParsedElement → String
  | .mk _ _ t _ => t

/-- Completed children of an element context, in insertion order. -/
def ParsedElement.children : ParsedElement → List ParsedElement
  | .mk _ _ _ c => c

/-- JSON-like output value, embedding `ParsedValue` from src/src/types/xml.ts:
a text string, an ordered field mapping, or an ordered sequence. -/
inductive ParsedValue where
  | s (value : String)
  | obj (fields : List (String × ParsedValue))
  | arr (items : List ParsedValue)

/-- Ordered mapping of field name to value, embedding `ParsedObject` from
src/src/types/xml.ts. -/
abbrev ParsedObject := List (String × ParsedValue)

/-- Field schema, embedding `FieldSchema` from src/src/types/schema.ts:
a tagged union of text, object and array field descriptions. -/
inductive FieldSchema where
  | text (name : String)
  | object (name : String) (fields : List FieldSchema)
  | array (name : String) (itemSchema : List FieldSchema)

/-- Name of the element a field schema matches. -/
def FieldSchema.fieldName : FieldSchema → String
  | .text n => n
  | .object n _ => n
  | .array n _ => n

/-- Record schema, embedding `ElementSchema` from src/src/types/schema.ts. -/
structure ElementSchema where
  rootElement : String
  fields : List FieldSchema

/-- The toy schema from src/src/config/toySchema.ts. -/
def toySchema : ElementSchema :=
  ⟨"toy",
   [FieldSchema.text "uuid",
    FieldSchema.text "name",
    FieldSchema.text "color",
    FieldSchema.object "manufacturer"
      [FieldSchema.text "name", FieldSchema.text "country"],
    FieldSchema.array "store"
      [FieldSchema.text "name", FieldSchema.text "location"],
    FieldSchema.object "comments"
      [FieldSchema.array "comment"
        [FieldSchema.text "text", FieldSchema.text "author",
         FieldSchema.text "date"]]]⟩

/-- All children of a context whose (already lower-cased) tag name matches
the schema name case-insensitively, in insertion order. -/
def childrenNamed (n : String) (e : ParsedElement) : List ParsedElement :=
  e.children.filter fun c => lowerName n == c.name

/-- First child matching a schema name, by insertion order. -/
def firstChildNamed (n : String) (e : ParsedElement) : Option ParsedElement :=
  (childrenNamed n e).head?

mutual
/-- Modelled from the spec: the projection algorithm of section 4.2, applied
once per schema field list.  A field that matches nothing is omitted from
the result (never bound to a null value). -/
def project : List FieldSchema → ParsedElement → ParsedObject
  | [], _ => []
  | f :: fs, e =>
    match projectField f e with
    | some kv => kv :: project fs e
    | none => project fs e
termination_by fs _ => sizeOf fs

/-- Modelled from the spec: projection of a single field.  Text takes the
first matching child and trims its accumulated text; Object recursively
projects the first matching child; Array collects all matching children in
order of appearance and is absent when zero matched. -/
def projectField : FieldSchema → ParsedElement → Option (String × ParsedValue)
  | .text n, e =>
    (firstChildNamed n e).map fun c => (n, ParsedValue.s c.text.trim)
  | .object n fs, e =>
    (firstChildNamed n e).map fun c => (n, ParsedValue.obj (project fs c))
  | .array n isch, e =>
    match childrenNamed n e with
    | [] => none
    | c :: cs =>
      some (n, ParsedValue.arr
        ((c :: cs).map fun d => ParsedValue.obj (project isch d)))
termination_by f _ => sizeOf f
end

/-- First binding of a key in a projected record object. -/
def lookupField (o : ParsedObject) (k : String) : Option ParsedValue :=
  (o.find? fun kv => kv.fst == k).map fun kv => kv.snd

/-- Terminal failure of an extraction operation, carrying the underlying
tokenizer cause (section 7 of the spec). -/
structure MalformedInputError where
  cause : String
deriving DecidableEq, Repr

/-- Modelled from the spec: one in-flight entry of the extractor's ancestor
stack, accumulating text and completed children for a still-open element. -/
structure Frame where
  name : String
  attributes : Attrs
  textAcc : String
  children : List ParsedElement

/-- Turn a fully closed frame into its element context. -/
def closeFrame (f : Frame) : ParsedElement :=
  .mk f.name f.attributes f.textAcc f.children

/-- Modelled from the spec: extractor state of section 4.2 - the ancestor
stack (head is the innermost open element) and the single active
root-tracking marker, identified by the stack depth at which the tracked
record element sits (identity, not name, so same-named nested elements do
not trigger emission). -/
structure ExtractorState where
  stack : List Frame
  tracking : Option Nat

/-- Fresh extractor state at the start of a document. -/
def initState : ExtractorState := ⟨[], none⟩

/-- Modelled from the spec: OpenTag transition.  The adapter lower-cases the
tag name; a new context with empty text and children is pushed, and if the
name case-insensitively equals the schema root element while no root-tracking
element is active, the new context becomes the tracked record element. -/
def stepOpen (schema : ElementSchema) (s : ExtractorState)
    (n : String) (attrs : Attrs) : ExtractorState :=
  let nm := lowerName n
  let tr :=
    if s.tracking = none ∧ lowerName schema.rootElement = nm then
      some (s.stack.length + 1)
    else s.tracking
  ⟨⟨nm, attrs, "", []⟩ :: s.stack, tr⟩

/-- Modelled from the spec: Text transition - append content to the current
element's accumulated text; text outside any open element is dropped. -/
def stepText (s : ExtractorState) (content : String) : ExtractorState :=
  match s.stack with
  | [] => s
  | f :: rest => ⟨{ f with textAcc := f.textAcc ++ content } :: rest, s.tracking⟩

/-- Modelled from the spec: CloseTag transition.  The top frame is completed;
if it is the tracked record element (identity match via stack depth) its
projection is emitted and the marker cleared; the completed element is
attached to its parent's children (or discarded at the outermost level). -/
def stepClose (schema : ElementSchema) (s : ExtractorState) :
    ExtractorState × Option ParsedObject :=
  match s.stack with
  | [] => (s, none)
  | f :: rest =>
    let el := closeFrame f
    let isRecord := decide (s.tracking = some (rest.length + 1))
    let newStack : List Frame :=
      match rest with
      | [] => []
      | p :: ps => { p with children := p.children ++ [el] } :: ps
    (⟨newStack, if isRecord then none else s.tracking⟩,
     if isRecord then some (project schema.fields el) else none)

/-- Modelled from the spec: run the extractor over an event list, returning
the emitted records in document order together with the terminal outcome.
An error event fails the whole operation immediately; an end event completes
it successfully; events after a terminal event are never processed. -/
def runFrom (schema : ElementSchema) :
    ExtractorState → List XmlEvent →
    List ParsedObject × Except MalformedInputError Unit
  | _, [] => ([], Except.ok ())
  | s, XmlEvent.openTag n a :: evs => runFrom schema (stepOpen schema s n a) evs
  | s, XmlEvent.text c :: evs => runFrom schema (stepText s c) evs
  | s, XmlEvent.closeTag _ :: evs =>
    let p := stepClose schema s
    let q := runFrom schema p.fst evs
    ((match p.snd with | some r => r :: q.fst | none => q.fst), q.snd)
  | _, XmlEvent.errorEv c :: _ => ([], Except.error ⟨c⟩)
  | _, XmlEvent.endEv :: _ => ([], Except.ok ())

/-- Modelled from the spec: the extractor run on a whole event stream from
the fresh per-document state. -/
def extractRecords (schema : ElementSchema) (evs : List XmlEvent) :
    List ParsedObject × Except MalformedInputError Unit :=
  runFrom schema initState evs

/-- Modelled from the spec: collect-all mode (parseXML in the absent
src/parsers/xmlParser.ts) - run to completion accumulating every projected
record into an ordered sequence, failing with MalformedInputError on a
tokenizer error. -/
def parseXML (schema : ElementSchema) (evs : List XmlEvent) :
    Except MalformedInputError (List ParsedObject) :=
  match extractRecords schema evs with
  | (recs, Except.ok _) => Except.ok recs
  | (_, Except.error e) => Except.error e

/-- Modelled from the spec: callback mode (parseXMLStream in the absent
src/parsers/xmlParser.ts) - the per-record callback is modelled as a fold
function invoked once per emitted record, in emission order. -/
def parseXMLStreamFold {α : Type} (schema : ElementSchema)
    (g : α → ParsedObject → α) :
    ExtractorState → α → List XmlEvent →
    α × Except MalformedInputError Unit
  | _, acc, [] => (acc, Except.ok ())
  | s, acc, XmlEvent.openTag n a :: evs =>
    parseXMLStreamFold schema g (stepOpen schema s n a) acc evs
  | s, acc, XmlEvent.text c :: evs =>
    parseXMLStreamFold schema g (stepText s c) acc evs
  | s, acc, XmlEvent.closeTag _ :: evs =>
    let p := stepClose schema s
    parseXMLStreamFold schema g p.fst
      (match p.snd with | some r => g acc r | none => acc) evs
  | _, acc, XmlEvent.errorEv c :: _ => (acc, Except.error ⟨c⟩)
  | _, acc, XmlEvent.endEv :: _ => (acc, Except.ok ())

/-- Modelled from the spec: the ordered trace of records delivered to the
per-record callback of parseXMLStream, together with its terminal outcome. -/
def forEachRecords (schema : ElementSchema) (evs : List XmlEvent) :
    List ParsedObject × Except MalformedInputError Unit :=
  parseXMLStreamFold schema (fun l r => l ++ [r]) initState [] evs

/-- Total runner for a terminal-free event segment: the extractor state and
emitted records after consuming the segment (terminal events act as no-ops
here; the runners above never reach this case past a terminal event). -/
def execSeg (schema : ElementSchema) :
    ExtractorState → List XmlEvent → List ParsedObject × ExtractorState
  | s, [] => ([], s)
  | s, XmlEvent.openTag n a :: evs => execSeg schema (stepOpen schema s n a) evs
  | s, XmlEvent.text c :: evs => execSeg schema (stepText s c) evs
  | s, XmlEvent.closeTag _ :: evs =>
    let p := stepClose schema s
    let q := execSeg schema p.fst evs
    ((match p.snd with | some r => r :: q.fst | none => q.fst), q.snd)
  | s, XmlEvent.errorEv _ :: evs => execSeg schema s evs
  | s, XmlEvent.endEv :: evs => execSeg schema s evs

/-- Whether an event is terminal (error or end of stream). -/
def isTerminal : XmlEvent → Bool
  | XmlEvent.errorEv _ => true
  | XmlEvent.endEv => true
  | _ => false

/-- A segment of events containing no terminal event. -/
def noTerminal (evs : List XmlEvent) : Bool :=
  evs.all fun ev => !(isTerminal ev)

/-- Properly nested open and close tags with case-insensitively matching
names, against a stack of still-open (lower-cased) names; terminal events
are excluded. -/
def balancedNames : List String → List XmlEvent → Bool
  | [], [] => true
  | _ :: _, [] => false
  | st, XmlEvent.openTag n _ :: evs => balancedNames (lowerName n :: st) evs
  | [], XmlEvent.closeTag _ :: _ => false
  | n :: st, XmlEvent.closeTag m :: evs =>
    (lowerName m == n) && balancedNames st evs
  | st, XmlEvent.text _ :: evs => balancedNames st evs
  | _, XmlEvent.errorEv _ :: _ => false
  | _, XmlEvent.endEv :: _ => false

/-- A well-formed tokenizer output stream: a balanced, terminal-free event
segment followed by the end event (the tokenizer contract of section 4.1 for
well-formed input documents). -/
def WellFormedStream (evs : List XmlEvent) : Prop :=
  ∃ pre, evs = pre ++ [XmlEvent.endEv] ∧ balancedNames [] pre = true

/-- An XML document fragment as a tree: an element with mixed content, or a
text node.  Used to state tree-level correctness of the event-level code. -/
inductive XmlNode where
  | elem (name : String) (attributes : Attrs) (content : List XmlNode)
  | textNode (content : String)

mutual
/-- Tokenizer output for one well-formed node: open tag, serialized content,
close tag (text nodes yield a single text event). -/
def serializeNode : XmlNode → List XmlEvent
  | .textNode c => [XmlEvent.text c]
  | .elem n a cs => XmlEvent.openTag n a :: (serializeList cs ++ [XmlEvent.closeTag n])
termination_by x => sizeOf x

/-- Tokenizer output for a list of sibling nodes, in document order. -/
def serializeList : List XmlNode → List XmlEvent
  | [] => []
  | x :: xs => serializeNode x ++ serializeList xs
termination_by xs => sizeOf xs
end

/-- Concatenation of the direct (top-level) text content of a node list. -/
def directTexts : List XmlNode → String
  | [] => ""
  | XmlNode.textNode c :: xs => c ++ directTexts xs
  | XmlNode.elem _ _ _ :: xs => directTexts xs

mutual
/-- All text content of a node, in document order, descendants included. -/
def nodeText : XmlNode → String
  | .textNode c => c
  | .elem _ _ cs => listText cs
termination_by x => sizeOf x

/-- All text content of a node list, in document order. -/
def listText : List XmlNode → String
  | [] => ""
  | x :: xs => nodeText x ++ listText xs
termination_by xs => sizeOf xs
end

/-- The element contexts the extractor builds for a node list: one context
per element child, in document order, with lower-cased name, direct text and
recursively converted children. -/
def treeToParsedList : List XmlNode → List ParsedElement
  | [] => []
  | XmlNode.textNode _ :: xs => treeToParsedList xs
  | XmlNode.elem n a cs :: xs =>
    ParsedElement.mk (lowerName n) a (directTexts cs) (treeToParsedList cs)
      :: treeToParsedList xs

/-- Lower-cased names of the element children of a node list, in order. -/
def elemChildNames : List XmlNode → List String
  | [] => []
  | XmlNode.textNode _ :: xs => elemChildNames xs
  | XmlNode.elem n _ _ :: xs => lowerName n :: elemChildNames xs

/-- Reading of the spec sentence for claim C8: a context whose children form
a mapping from child tag name to the children of that name presents each
child tag name as a single key. -/
def childrenKeyedByName (e : ParsedElement) : Prop :=
  (e.children.map ParsedElement.name).Nodup

/-- Document-level header, embedding `DocumentHeader` from src/src/server.ts:
optional date and author collected from direct children of the root. -/
structure DocumentHeader where
  date : Option String
  author : Option String
deriving DecidableEq, Repr

/-- Assignment of a collected header value, embedding the two conditional
assignments in the closetag handler of countFirstLevelToysAndHeader
(src/src/server.ts): `if (lowerTagName === 'date') header.date = value;`
and the analogous author line. -/
def setHeaderField (h : DocumentHeader) (tag v : String) : DocumentHeader :=
  let h1 := if tag = "date" then { h with date := some v } else h
  if tag = "author" then { h1 with author := some v } else h1

/-- JavaScript `tagName in header`: whether the header field for this tag has
been assigned (only date and author are ever assigned). -/
def headerAssigned (h : DocumentHeader) (tag : String) : Bool :=
  if tag = "date" then h.date.isSome
  else if tag = "author" then h.author.isSome
  else false

/-- `DOCUMENT_HEADER_ELEMENTS.includes(tagName)` from src/src/server.ts,
where DOCUMENT_HEADER_ELEMENTS is the constant list of date and author. -/
def isHeaderElement (tag : String) : Bool :=
  tag == "date" || tag == "author"

/-- Mutable state of countFirstLevelToysAndHeader (src/src/server.ts lines
84-89): depth starts at -1, plus the first-level toy count, the inside-root
flag, the header element currently being collected, its text buffer, and the
header collected so far. -/
structure CountState where
  depth : Int
  count : Nat
  insideRoot : Bool
  collecting : Option String
  headerText : String
  header : DocumentHeader
deriving DecidableEq, Repr

/-- Initial state of countFirstLevelToysAndHeader. -/
def initCountState : CountState := ⟨-1, 0, false, none, "", ⟨none, none⟩⟩

/-- The opentag handler of countFirstLevelToysAndHeader (src/src/server.ts
lines 91-109): lower-case the name, increment depth, enter the root at depth
zero, start header collection for an unassigned date or author at depth one,
and count toy elements at depth one. -/
def countOpen (s : CountState) (n : String) : CountState :=
  let tagName := lowerName n
  let depth := s.depth + 1
  let insideRoot := if depth = 0 then true else s.insideRoot
  let startCollect :=
    insideRoot && decide (depth = 1) && isHeaderElement tagName &&
      !(headerAssigned s.header tagName)
  let collecting := if startCollect then some tagName else s.collecting
  let headerText := if startCollect then "" else s.headerText
  let count :=
    if insideRoot && decide (depth = 1) && (tagName == "toy") then s.count + 1
    else s.count
  ⟨depth, count, insideRoot, collecting, headerText, s.header⟩

/-- The text handler of countFirstLevelToysAndHeader (src/src/server.ts lines
111-115): append to the buffer while a header element is being collected. -/
def countText (s : CountState) (c : String) : CountState :=
  if s.collecting.isSome then { s with headerText := s.headerText ++ c } else s

/-- The closetag handler of countFirstLevelToysAndHeader (src/src/server.ts
lines 117-132): finish header collection at depth one with the trimmed
buffer, then decrement depth and leave the root below depth zero. -/
def countClose (s : CountState) (n : String) : CountState :=
  let tagName := lowerName n
  let s1 :=
    if s.insideRoot && decide (s.depth = 1) && (s.collecting == some tagName)
    then
      { s with header := setHeaderField s.header tagName s.headerText.trim,
               collecting := none, headerText := "" }
    else s
  if s1.insideRoot then
    let depth := s1.depth - 1
    { s1 with depth := depth,
              insideRoot := if depth < 0 then false else s1.insideRoot }
  else s1

/-- One non-terminal event step of countFirstLevelToysAndHeader (terminal
events settle the promise and are handled by runCount instead). -/
def countStep (s : CountState) : XmlEvent → CountState
  | XmlEvent.openTag n _ => countOpen s n
  | XmlEvent.text c => countText s c
  | XmlEvent.closeTag n => countClose s n
  | XmlEvent.errorEv _ => s
  | XmlEvent.endEv => s

/-- State of countFirstLevelToysAndHeader after a terminal-free segment. -/
def execCount (s : CountState) (evs : List XmlEvent) : CountState :=
  evs.foldl countStep s

/-- The promise of countFirstLevelToysAndHeader: reject with the tokenizer
cause on an error event, resolve with the count and header on the end event
(a stream with no terminal event never settles; modelled as an error). -/
def runCount : CountState → List XmlEvent → Except String (Nat × DocumentHeader)
  | _, [] => Except.error "stream ended without a terminal event"
  | _, XmlEvent.errorEv c :: _ => Except.error c
  | s, XmlEvent.endEv :: _ => Except.ok (s.count, s.header)
  | s, ev :: evs => runCount (countStep s ev) evs

/-- countFirstLevelToysAndHeader from src/src/server.ts, over the event
stream the sax tokenizer produces for the uploaded file. -/
def countFirstLevelToysAndHeader (evs : List XmlEvent) :
    Except String (Nat × DocumentHeader) :=
  runCount initCountState evs

/-- Whether a node is an element named toy, case-insensitively. -/
def isToyElem : XmlNode → Bool
  | XmlNode.elem n _ _ => lowerName n == "toy"
  | _ => false

/-- Specification-side count: the number of toy-named element nodes in a
node list (the direct children of the root, when applied to root content). -/
def firstLevelToyCount (ns : List XmlNode) : Nat :=
  (ns.filter isToyElem).length

/-- Whether a node is an element with the given lower-cased name. -/
def isElemNamed (tag : String) : XmlNode → Bool
  | XmlNode.elem n _ _ => lowerName n == tag
  | _ => false

/-- First element node with the given lower-cased name in a node list. -/
def firstElemNamed (tag : String) (ns : List XmlNode) : Option XmlNode :=
  ns.find? (isElemNamed tag)

/-- Specification-side header: for date and author, the trimmed full text of
the first direct child of the root with that name, absent when none exists. -/
def headerOf (ns : List XmlNode) : DocumentHeader :=
  ⟨(firstElemNamed "date" ns).map fun nd => (nodeText nd).trim,
   (firstElemNamed "author" ns).map fun nd => (nodeText nd).trim⟩

/-- First-assigned-wins combination of header values. -/
def orFirst (a b : Option String) : Option String :=
  match a with
  | some v => some v
  | none => b

/-- Manufacturer record, embedding ToyManufacturer from src/src/types/toy.ts. -/
structure ToyManufacturer where
  name : Option String
  country : Option String
deriving DecidableEq, Repr

/-- Store record, embedding ToyStore from src/src/types/toy.ts. -/
structure ToyStore where
  name : Option String
  location : Option String
deriving DecidableEq, Repr

/-- Comment record, embedding ToyComment from src/src/types/toy.ts. -/
structure ToyComment where
  text : Option String
  author : Option String
  date : Option String
deriving DecidableEq, Repr

/-- Comments wrapper, embedding ToyComments from src/src/types/toy.ts. -/
structure ToyComments where
  comment : Option (List ToyComment)
deriving DecidableEq, Repr

/-- Toy record, embedding Toy from src/src/types/toy.ts: all fields optional,
date and author being the document-level header fields the server merges. -/
structure Toy where
  uuid : Option String
  name : Option String
  color : Option String
  manufacturer : Option ToyManufacturer
  store : Option (List ToyStore)
  comments : Option ToyComments
  date : Option String
  author : Option String
deriving DecidableEq, Repr

/-- mergeDocumentHeader from src/src/server.ts lines 223-226: when the
document header carries a date or an author, spread the header over the toy
(own header properties overwrite same-named toy properties, absent header
properties leave the toy's values); otherwise return the toy unchanged. -/
def mergeDocumentHeader (documentHeader : DocumentHeader) (toy : Toy) : Toy :=
  if documentHeader.date.isSome || documentHeader.author.isSome then
    { toy with
      date := match documentHeader.date with
              | some d => some d
              | none => toy.date,
      author := match documentHeader.author with
                | some a => some a
                | none => toy.author }
  else toy

/-- A small record schema for concrete check inputs: toy records carrying a
single name text field. -/
def smallSchema : ElementSchema := ⟨"toy", [FieldSchema.text "name"]⟩

/-- Concrete balanced, terminal-free event segment: a toys wrapper holding
one complete toy record. -/
def sampleSeg : List XmlEvent :=
  [XmlEvent.openTag "toys" [], XmlEvent.openTag "toy" [],
   XmlEvent.openTag "name" [], XmlEvent.text "Brick",
   XmlEvent.closeTag "name", XmlEvent.closeTag "toy",
   XmlEvent.closeTag "toys"]

/-- The sample segment as a complete well-formed tokenizer stream. -/
def sampleStream : List XmlEvent := sampleSeg ++ [XmlEvent.endEv]

/-- Concrete truncated segment: the stream stops while a tracked toy record
and its name child are still open. -/
def truncatedSeg : List XmlEvent :=
  [XmlEvent.openTag "toys" [], XmlEvent.openTag "toy" [],
   XmlEvent.openTag "name" [], XmlEvent.text "A"]

/-- Concrete child context: a first name child with padded text. -/
def firstNameChild : ParsedElement := ParsedElement.mk "name" [] " A " []

/-- Concrete child context: a second child with the same tag name. -/
def secondNameChild : ParsedElement := ParsedElement.mk "name" [] "B" []

/-- Concrete record context with two same-named children. -/
def twoNameRecord : ParsedElement :=
  ParsedElement.mk "toy" [] "" [firstNameChild, secondNameChild]

/-- Concrete record context with two store children and one other child. -/
def twoStoreRecord : ParsedElement :=
  ParsedElement.mk "toy" [] ""
    [ParsedElement.mk "store" [] "Target" [],
     ParsedElement.mk "color" [] "Blue" [],
     ParsedElement.mk "store" [] "Walmart" []]

/-- Concrete record context with no store child. -/
def noStoreRecord : ParsedElement :=
  ParsedElement.mk "toy" [] "" [ParsedElement.mk "color" [] "Blue" []]

/-- Concatenation of a list of text chunks, in order, with no separator. -/
def concatTexts : List String → String
  | [] => ""
  | t :: ts => t ++ concatTexts ts

/-- Concrete terminal-free segment opening a record r and closing three
children named x, y, x under it, leaving r itself open. -/
def dupChildSeg : List XmlEvent :=
  [XmlEvent.openTag "r" [], XmlEvent.openTag "x" [], XmlEvent.closeTag "x",
   XmlEvent.openTag "y" [], XmlEvent.closeTag "y",
   XmlEvent.openTag "x" [], XmlEvent.closeTag "x"]

/-- Schema tracking r records, with no fields. -/
def dupSchema : ElementSchema := ⟨"r", []⟩

/-- The context of the innermost currently open element of a state. -/
def currentContext (s : ExtractorState) : Option ParsedElement :=
  s.stack.head?.map closeFrame

/-- The in-flight record context after processing the duplicate-children
segment. -/
def dupContext : ParsedElement :=
  (currentContext (execSeg dupSchema initState dupChildSeg).snd).getD
    (ParsedElement.mk "" [] "" [])

/-- Concrete mixed content for the flat-children check: one store element,
direct text, and a second store element. -/
def sampleNodes : List XmlNode :=
  [XmlNode.elem "store" [] [XmlNode.textNode "Target"],
   XmlNode.textNode " pad ",
   XmlNode.elem "STORE" [] []]

/-- Concrete toy record carrying its own date value. -/
def sampleToy : Toy :=
  ⟨some "u1", some "Brick", some "Blue", none, none, none, some "old", none⟩

/-- Concrete document header carrying only a date. -/
def sampleHeader : DocumentHeader := ⟨some "2024-01-01", none⟩

/-- Concrete root content: a date header child with padded text, two toy
children in different letter cases, a nested toy that must not be counted,
and a second date child that must be ignored. -/
def sampleTree : List XmlNode :=
  [XmlNode.elem "date" [] [XmlNode.textNode " 2024-01-01 "],
   XmlNode.elem "toy" [] [XmlNode.elem "toy" [] []],
   XmlNode.elem "TOY" [] [],
   XmlNode.elem "date" [] [XmlNode.textNode "ignored"]]

theorem execSeg_append (schema : ElementSchema) (a b : List XmlEvent) :
    ∀ s : ExtractorState,
      execSeg schema s (a ++ b) =
        ((execSeg schema s a).fst ++ (execSeg schema (execSeg schema s a).snd b).fst,
         (execSeg schema (execSeg schema s a).snd b).snd) := by
  induction a with
  | nil => intro s; simp [execSeg]
  | cons ev evs ih =>
    intro s
    cases ev with
    | openTag nm attrs => simpa [execSeg] using ih (stepOpen schema s nm attrs)
    | text c => simpa [execSeg] using ih (stepText s c)
    | closeTag nm =>
      have ih2 := ih (stepClose schema s).fst
      simp only [List.cons_append, execSeg, List.append_eq]
      rw [ih2]
      cases (stepClose schema s).snd <;> simp
    | errorEv c => simpa [execSeg] using ih s
    | endEv => simpa [execSeg] using ih s

theorem runFrom_append (schema : ElementSchema) (pre evs : List XmlEvent)
    (h : noTerminal pre = true) :
    ∀ s : ExtractorState,
      runFrom schema s (pre ++ evs) =
        ((execSeg schema s pre).fst ++
           (runFrom schema (execSeg schema s pre).snd evs).fst,
         (runFrom schema (execSeg schema s pre).snd evs).snd) := by
  induction pre with
  | nil => intro s; simp [execSeg, runFrom]
  | cons ev rest ih =>
    have hrest : noTerminal rest = true := by
      simp [noTerminal, List.all_cons] at h
      simpa [noTerminal] using h.2
    have hev : isTerminal ev = false := by
      simp [noTerminal, List.all_cons] at h
      simpa using h.1
    intro s
    cases ev with
    | openTag nm attrs =>
      simpa [runFrom, execSeg] using ih hrest (stepOpen schema s nm attrs)
    | text c => simpa [runFrom, execSeg] using ih hrest (stepText s c)
    | closeTag nm =>
      have ih2 := ih hrest (stepClose schema s).fst
      simp only [List.cons_append, runFrom, execSeg, List.append_eq]
      rw [ih2]
      cases (stepClose schema s).snd <;> simp
    | errorEv c => simp [isTerminal] at hev
    | endEv => simp [isTerminal] at hev

theorem parseXMLStreamFold_eq (schema : ElementSchema) {α : Type}
    (g : α → ParsedObject → α) (evs : List XmlEvent) :
    ∀ (s : ExtractorState) (acc : α),
      parseXMLStreamFold schema g s acc evs =
        ((runFrom schema s evs).fst.foldl g acc, (runFrom schema s evs).snd) := by
  induction evs with
  | nil => intro s acc; simp [parseXMLStreamFold, runFrom]
  | cons ev evs ih =>
    intro s acc
    cases ev with
    | openTag nm attrs => simpa [parseXMLStreamFold, runFrom] using ih _ acc
    | text c => simpa [parseXMLStreamFold, runFrom] using ih _ acc
    | closeTag nm =>
      simp only [parseXMLStreamFold, runFrom, ih]
      cases (stepClose schema s).snd <;> simp
    | errorEv c => simp [parseXMLStreamFold, runFrom]
    | endEv => simp [parseXMLStreamFold, runFrom]

theorem foldl_snoc_eq_append {β : Type} (xs : List β) :
    ∀ acc : List β, List.foldl (fun l r => l ++ [r]) acc xs = acc ++ xs := by
  induction xs with
  | nil => intro acc; simp
  | cons x xs ih => intro acc; simp [ih]

theorem noTerminal_of_balanced :
    ∀ (pre : List XmlEvent) (st : List String),
      balancedNames st pre = true → noTerminal pre = true := by
  intro pre
  induction pre with
  | nil => intro st _; simp [noTerminal]
  | cons ev evs ih =>
    intro st h
    cases ev with
    | openTag nm attrs =>
      simp only [balancedNames] at h
      simp [noTerminal, isTerminal, List.all_cons]
      simpa [noTerminal] using ih _ h
    | text c =>
      simp only [balancedNames] at h
      simp [noTerminal, isTerminal, List.all_cons]
      simpa [noTerminal] using ih _ h
    | closeTag nm =>
      cases st with
      | nil => simp [balancedNames] at h
      | cons n st =>
        simp only [balancedNames, Bool.and_eq_true] at h
        simp [noTerminal, isTerminal, List.all_cons]
        simpa [noTerminal] using ih _ h.2
    | errorEv c => simp [balancedNames] at h
    | endEv => simp [balancedNames] at h

/-- C1: for every well-formed input stream and every ElementSchema, the
ordered record sequence returned by collect (parseXML) is element-for-element
equal to the sequence of records delivered, in order, to forEach's
(parseXMLStream's) per-record callback over the same input and schema, and
the streaming operation completes successfully. -/
theorem collect_forEach_agree (schema : ElementSchema) (evs : List XmlEvent)
    (h : WellFormedStream evs) :
    parseXML schema evs = Except.ok (forEachRecords schema evs).fst ∧
    (forEachRecords schema evs).snd = Except.ok () := by
  obtain ⟨pre, rfl, hbal⟩ := h
  have hnt := noTerminal_of_balanced pre [] hbal
  have hrun := runFrom_append schema pre [XmlEvent.endEv] hnt initState
  simp only [runFrom, List.append_nil] at hrun
  have hfold := parseXMLStreamFold_eq schema (fun l r => l ++ [r])
      (pre ++ [XmlEvent.endEv]) initState []
  refine ⟨?_, ?_⟩
  · simp [parseXML, extractRecords, hrun, forEachRecords, hfold,
      foldl_snoc_eq_append]
  · simp [forEachRecords, hfold, hrun]

/-- C1 witness: the sample stream is well-formed and collect agrees with the
callback delivery trace on it. -/
theorem collect_forEach_agree_witness :
    WellFormedStream sampleStream ∧
    parseXML smallSchema sampleStream =
      Except.ok (forEachRecords smallSchema sampleStream).fst := by
  have hw : WellFormedStream sampleStream := ⟨sampleSeg, rfl, by decide⟩
  exact ⟨hw, (collect_forEach_agree smallSchema sampleStream hw).1⟩

/-- C4: for every event stream in which the tokenizer reports an error after
a terminal-free prefix, collect fails with a single MalformedInputError
carrying the underlying cause, forEach fails with the same error, the records
already delivered to the callback before the failure point are exactly the
records of the prefix, and the events after the error are never processed
(the suffix does not influence the outcome). -/
theorem malformed_input_fails (schema : ElementSchema)
    (pre suf : List XmlEvent) (c : String) (h : noTerminal pre = true) :
    parseXML schema (pre ++ XmlEvent.errorEv c :: suf) = Except.error ⟨c⟩ ∧
    forEachRecords schema (pre ++ XmlEvent.errorEv c :: suf) =
      ((execSeg schema initState pre).fst, Except.error ⟨c⟩) := by
  have hrun := runFrom_append schema pre (XmlEvent.errorEv c :: suf) h initState
  simp only [runFrom, List.append_nil] at hrun
  have hfold := parseXMLStreamFold_eq schema (fun l r => l ++ [r])
      (pre ++ XmlEvent.errorEv c :: suf) initState []
  refine ⟨?_, ?_⟩
  · simp [parseXML, extractRecords, hrun]
  · simp [forEachRecords, hfold, hrun, foldl_snoc_eq_append]

/-- C4 witness: after a complete record, an error event fails collect with
the cause, at a concrete input. -/
theorem malformed_input_fails_witness :
    noTerminal sampleSeg = true ∧
    parseXML smallSchema (sampleSeg ++ XmlEvent.errorEv "mismatched tag" :: []) =
      Except.error ⟨"mismatched tag"⟩ :=
  ⟨by decide,
   (malformed_input_fails smallSchema sampleSeg [] "mismatched tag" (by decide)).1⟩

/-- C5: if the stream ends while a root-tracking record element is still
open, the extraction completes successfully in both modes, delivering exactly
the records of the terminal-free prefix: no record is emitted for the
still-open element and no error is raised. -/
theorem truncated_end_completes (schema : ElementSchema) (pre : List XmlEvent)
    (h1 : noTerminal pre = true)
    (_h2 : (execSeg schema initState pre).snd.tracking.isSome = true) :
    parseXML schema (pre ++ [XmlEvent.endEv]) =
      Except.ok (execSeg schema initState pre).fst ∧
    forEachRecords schema (pre ++ [XmlEvent.endEv]) =
      ((execSeg schema initState pre).fst, Except.ok ()) := by
  have hrun := runFrom_append schema pre [XmlEvent.endEv] h1 initState
  simp only [runFrom, List.append_nil] at hrun
  have hfold := parseXMLStreamFold_eq schema (fun l r => l ++ [r])
      (pre ++ [XmlEvent.endEv]) initState []
  refine ⟨?_, ?_⟩
  · simp [parseXML, extractRecords, hrun]
  · simp [forEachRecords, hfold, hrun, foldl_snoc_eq_append]

/-- C5 witness: a truncated stream whose toy record is still open at the end
event completes successfully with no record emitted. -/
theorem truncated_end_completes_witness :
    noTerminal truncatedSeg = true ∧
    (execSeg smallSchema initState truncatedSeg).snd.tracking.isSome = true ∧
    parseXML smallSchema (truncatedSeg ++ [XmlEvent.endEv]) =
      Except.ok (execSeg smallSchema initState truncatedSeg).fst :=
  ⟨by decide, by decide,
   (truncated_end_completes smallSchema truncatedSeg (by decide) (by decide)).1⟩

theorem projectField_key (f : FieldSchema) (e : ParsedElement)
    (kv : String × ParsedValue) (h : projectField f e = some kv) :
    kv.fst = FieldSchema.fieldName f := by
  cases f with
  | text n =>
    simp [projectField, Option.map_eq_some'] at h
    obtain ⟨c, _, rfl⟩ := h
    simp [FieldSchema.fieldName]
  | object n fs =>
    simp [projectField, Option.map_eq_some'] at h
    obtain ⟨c, _, rfl⟩ := h
    simp [FieldSchema.fieldName]
  | array n isch =>
    rw [projectField] at h
    cases hc : childrenNamed n e with
    | nil => rw [hc] at h; simp at h
    | cons c cs =>
      rw [hc] at h
      simp at h
      rw [← h]
      simp [FieldSchema.fieldName]

theorem projectField_none_of_no_children (f : FieldSchema) (e : ParsedElement)
    (h : childrenNamed (FieldSchema.fieldName f) e = []) :
    projectField f e = none := by
  cases f with
  | text n =>
    simp [FieldSchema.fieldName] at h
    simp [projectField, firstChildNamed, h]
  | object n fs =>
    simp [FieldSchema.fieldName] at h
    simp [projectField, firstChildNamed, h]
  | array n isch =>
    simp [FieldSchema.fieldName] at h
    rw [projectField, h]

theorem lookupField_cons (k : String) (v : ParsedValue) (o : ParsedObject)
    (n : String) :
    lookupField ((k, v) :: o) n =
      if k == n then some v else lookupField o n := by
  by_cases h : k == n <;> simp [lookupField, List.find?, h]

theorem lookup_project_no_children (n : String) (e : ParsedElement)
    (h : childrenNamed n e = []) :
    ∀ fs : List FieldSchema, lookupField (project fs e) n = none := by
  intro fs
  induction fs with
  | nil => simp [project, lookupField]
  | cons f fs ih =>
    rw [project]
    cases hf : projectField f e with
    | none => exact ih
    | some kv =>
      obtain ⟨k, v⟩ := kv
      have hk : k = FieldSchema.fieldName f := projectField_key f e (k, v) hf
      rw [lookupField_cons]
      by_cases hkn : k = n
      · exfalso
        have : projectField f e = none := by
          apply projectField_none_of_no_children
          rw [← hk, hkn]
          exact h
        rw [this] at hf
        exact Option.noConfusion hf
      · simp [hkn, ih]

theorem lookup_project_skip (fsPre fsSuf : List FieldSchema) (n : String)
    (e : ParsedElement)
    (hfresh : ∀ f ∈ fsPre, FieldSchema.fieldName f ≠ n) :
    lookupField (project (fsPre ++ fsSuf) e) n =
      lookupField (project fsSuf e) n := by
  induction fsPre with
  | nil => simp
  | cons f fs ih =>
    have hf : FieldSchema.fieldName f ≠ n := hfresh f (by simp)
    have hrest : ∀ g ∈ fs, FieldSchema.fieldName g ≠ n := fun g hg =>
      hfresh g (by simp [hg])
    rw [List.cons_append, project]
    cases hp : projectField f e with
    | none => exact ih hrest
    | some kv =>
      obtain ⟨k, v⟩ := kv
      have hk : k = FieldSchema.fieldName f := projectField_key f e (k, v) hp
      rw [lookupField_cons]
      have : (k == n) = false := by
        simp [hk]
        exact hf
      rw [this]
      simp only [Bool.false_eq_true, if_false]
      exact ih hrest

/-- C2: for every record context and Array field in a schema (with distinct
field names): when at least one child matches the field name
case-insensitively, the projected field is present and its value is the
non-empty list of the projections of all matching children in order of
appearance; when zero children match, the field is entirely absent from the
result object. -/
theorem array_field_projection (n : String)
    (isch fsPre fsSuf : List FieldSchema) (e : ParsedElement)
    (hfresh : ∀ f ∈ fsPre, FieldSchema.fieldName f ≠ n) :
    lookupField (project (fsPre ++ FieldSchema.array n isch :: fsSuf) e) n =
      (if (childrenNamed n e).isEmpty then none
       else some (ParsedValue.arr
         ((childrenNamed n e).map fun d => ParsedValue.obj (project isch d)))) ∧
    ((childrenNamed n e).isEmpty = false →
      ((childrenNamed n e).map fun d => ParsedValue.obj (project isch d)) ≠ []) := by
  rw [lookup_project_skip fsPre (FieldSchema.array n isch :: fsSuf) n e hfresh]
  refine ⟨?_, ?_⟩
  · rw [project]
    cases hc : childrenNamed n e with
    | nil =>
      rw [projectField, hc]
      simp [lookup_project_no_children n e hc fsSuf]
    | cons c cs =>
      rw [projectField, hc]
      simp [lookupField_cons]
  · intro hne
    cases hc : childrenNamed n e with
    | nil => rw [hc] at hne; simp [List.isEmpty] at hne
    | cons c cs => simp

/-- C2 witness: a record with two store children yields the store field with
both projections in order; the freshness hypothesis holds for a preceding
color text field. -/
theorem array_field_projection_witness :
    (∀ f ∈ [FieldSchema.text "color"], FieldSchema.fieldName f ≠ "store") ∧
    lookupField
        (project ([FieldSchema.text "color"] ++
          FieldSchema.array "store" [FieldSchema.text "name"] :: []) twoStoreRecord)
        "store" =
      (if (childrenNamed "store" twoStoreRecord).isEmpty then none
       else some (ParsedValue.arr
         ((childrenNamed "store" twoStoreRecord).map fun d =>
           ParsedValue.obj (project [FieldSchema.text "name"] d)))) := by
  have hfresh : ∀ f ∈ [FieldSchema.text "color"],
      FieldSchema.fieldName f ≠ "store" := by
    intro f hf
    simp at hf
    subst hf
    simp [FieldSchema.fieldName]
  exact ⟨hfresh,
    (array_field_projection "store" [FieldSchema.text "name"]
      [FieldSchema.text "color"] [] twoStoreRecord hfresh).1⟩

/-- C3: for a Text or Object field, when two or more (or generally at least
one) same-named children match, the projection uses only the first matching
child in insertion order - its trimmed accumulated text for Text, its
recursive projection for Object - ignoring all later matching children; when
no child matches, the field is omitted. -/
theorem first_match_wins (n : String) (fs : List FieldSchema)
    (e : ParsedElement) :
    (∀ c cs, childrenNamed n e = c :: cs →
      projectField (FieldSchema.text n) e =
        some (n, ParsedValue.s c.text.trim) ∧
      projectField (FieldSchema.object n fs) e =
        some (n, ParsedValue.obj (project fs c))) ∧
    (childrenNamed n e = [] →
      projectField (FieldSchema.text n) e = none ∧
      projectField (FieldSchema.object n fs) e = none) := by
  constructor
  · intro c cs h
    constructor <;> simp [projectField, firstChildNamed, h]
  · intro h
    constructor <;> simp [projectField, firstChildNamed, h]

/-- C3 witness: with two same-named name children, the text projection uses
the first child's trimmed text and ignores the second. -/
theorem first_match_wins_witness :
    childrenNamed "name" twoNameRecord = firstNameChild :: [secondNameChild] ∧
    projectField (FieldSchema.text "name") twoNameRecord =
      some ("name", ParsedValue.s firstNameChild.text.trim) :=
  ⟨rfl,
   ((first_match_wins "name" [] twoNameRecord).1 firstNameChild
     [secondNameChild] rfl).1⟩

/-- C6: the extractor treats two tag names as the same name exactly when they
are equal after case folding: a single element with tag t is emitted as a
record under schema root r exactly when their lower-casings agree (tag names
being lower-cased at the tokenizer boundary), and a stored child with
lower-cased tag t matches a schema field named r under the same condition. -/
theorem case_fold_matching (r t : String) (attrs : Attrs)
    (fields : List FieldSchema) :
    parseXML ⟨r, fields⟩
        [XmlEvent.openTag t attrs, XmlEvent.closeTag t, XmlEvent.endEv] =
      Except.ok
        (if lowerName r = lowerName t
         then [project fields (ParsedElement.mk (lowerName t) attrs "" [])]
         else []) ∧
    childrenNamed r
        (ParsedElement.mk "p" [] ""
          [ParsedElement.mk (lowerName t) attrs "" []]) =
      (if lowerName r = lowerName t
       then [ParsedElement.mk (lowerName t) attrs "" []]
       else []) := by
  constructor
  · by_cases h : lowerName r = lowerName t <;>
      simp [parseXML, extractRecords, runFrom, stepOpen, stepClose, initState,
        closeFrame, h]
  · by_cases h : lowerName r = lowerName t <;>
      simp [childrenNamed, ParsedElement.children, ParsedElement.name, h]

theorem runFrom_textRun (schema : ElementSchema) (texts : List String) :
    ∀ (f : Frame) (rest : List Frame) (tr : Option Nat) (evs : List XmlEvent),
      runFrom schema ⟨f :: rest, tr⟩ (texts.map XmlEvent.text ++ evs) =
        runFrom schema
          ⟨{ f with textAcc := f.textAcc ++ concatTexts texts } :: rest, tr⟩
          evs := by
  induction texts with
  | nil =>
    intro f rest tr evs
    simp [concatTexts, String.append_empty]
  | cons t ts ih =>
    intro f rest tr evs
    simp only [List.map_cons, List.cons_append, runFrom, stepText]
    rw [List.append_eq, ih]
    simp [concatTexts, String.append_assoc]

/-- C7: the extracted text value equals the concatenation of all text events
received between the element's open and its close, with leading and trailing
whitespace stripped and no other transformation applied - for an arbitrary
list of text chunks delivered for the name child of a toy record. -/
theorem text_concat_trimmed (texts : List String) :
    parseXML smallSchema
        (XmlEvent.openTag "toy" [] :: XmlEvent.openTag "name" [] ::
          (texts.map XmlEvent.text ++
            [XmlEvent.closeTag "name", XmlEvent.closeTag "toy",
             XmlEvent.endEv])) =
      Except.ok [[("name", ParsedValue.s (concatTexts texts).trim)]] := by
  have h1 : lowerName "toy" = "toy" := by decide
  have h2 : lowerName "name" = "name" := by decide
  have hopen : stepOpen smallSchema initState "toy" [] =
      ⟨[⟨"toy", [], "", []⟩], some 1⟩ := by
    simp [stepOpen, initState, smallSchema, h1]
  have hopen2 : stepOpen smallSchema ⟨[⟨"toy", [], "", []⟩], some 1⟩ "name" [] =
      ⟨[⟨"name", [], "", []⟩, ⟨"toy", [], "", []⟩], some 1⟩ := by
    simp [stepOpen, smallSchema, h2]
  simp only [parseXML, extractRecords, runFrom, hopen, hopen2]
  rw [runFrom_textRun smallSchema texts]
  simp only [runFrom, stepClose]
  simp only [List.length_cons, List.length_nil]
  norm_num
  simp [closeFrame, smallSchema, project, projectField, firstChildNamed,
    childrenNamed, ParsedElement.children, ParsedElement.name,
    ParsedElement.text, h2, String.empty_append]

theorem execSeg_serializeList_tracked (schema : ElementSchema) :
    ∀ (cs : List XmlNode) (f : Frame) (rest : List Frame) (k : Nat),
      k ≤ rest.length + 1 →
      execSeg schema ⟨f :: rest, some k⟩ (serializeList cs) =
        ([], ⟨{ f with
                  textAcc := f.textAcc ++ directTexts cs,
                  children := f.children ++ treeToParsedList cs } :: rest,
              some k⟩)
  | [], f, rest, k, _ => by
    simp [serializeList, execSeg, directTexts, treeToParsedList,
      String.append_empty]
  | XmlNode.textNode c :: xs, f, rest, k, hk => by
    have ih := execSeg_serializeList_tracked schema xs
      { f with textAcc := f.textAcc ++ c } rest k hk
    simp only [serializeList, serializeNode, List.singleton_append,
      List.cons_append, execSeg, stepText]
    rw [List.nil_append, ih]
    simp [directTexts, treeToParsedList, String.append_assoc]
  | XmlNode.elem n a cs2 :: xs, f, rest, k, hk => by
    have ih1 := execSeg_serializeList_tracked schema cs2
      ⟨lowerName n, a, "", []⟩ (f :: rest) k
      (by simp; omega)
    have ih2 := execSeg_serializeList_tracked schema xs
      { f with children := f.children ++
          [ParsedElement.mk (lowerName n) a (directTexts cs2)
            (treeToParsedList cs2)] } rest k hk
    simp only [serializeList, serializeNode, List.cons_append, execSeg,
      stepOpen]
    rw [if_neg (by simp)]
    rw [List.append_assoc, List.singleton_append,
      execSeg_append schema (serializeList cs2)
        (XmlEvent.closeTag n :: serializeList xs)]
    rw [ih1]
    simp only [execSeg, stepClose, List.length_cons]
    rw [if_neg (by simp; omega), if_neg (by simp; omega)]
    simp only [closeFrame, String.empty_append, List.nil_append]
    rw [ih2]
    simp [directTexts, treeToParsedList, List.append_assoc]
termination_by cs => sizeOf cs

theorem treeToParsedList_names (cs : List XmlNode) :
    (treeToParsedList cs).map ParsedElement.name = elemChildNames cs := by
  induction cs with
  | nil => simp [treeToParsedList, elemChildNames]
  | cons x xs ih =>
    cases x <;>
      simp [treeToParsedList, elemChildNames, ParsedElement.name, ih]

/-- C8 counterexample: the in-flight record context built for a record with
three children tagged x, y, x holds the tag name x as two separate entries of
its flat children sequence, so the collected children are not stored as a
mapping keyed by child tag name. -/
theorem context_children_not_keyed :
    dupContext.children.map ParsedElement.name = ["x", "y", "x"] ∧
    ¬ childrenKeyedByName dupContext := by
  refine ⟨by decide, ?_⟩
  show ¬ (dupContext.children.map ParsedElement.name).Nodup
  decide

/-- C8 (amended): every in-flight context stores, besides tag name,
attributes and accumulated text, its collected children as a single flat
ordered sequence of child contexts in insertion order - one entry per element
child, in document order, from which first-match lookup (head of the
name-filtered sequence) and collect-all lookup (the name-filtered sequence)
are both derived - rather than as a name-indexed mapping. -/
theorem context_children_flat (schema : ElementSchema) (n : String)
    (a : Attrs) (cs : List XmlNode)
    (h : lowerName schema.rootElement = lowerName n) :
    execSeg schema initState (XmlEvent.openTag n a :: serializeList cs) =
      ([], ⟨[Frame.mk (lowerName n) a (directTexts cs) (treeToParsedList cs)],
            some 1⟩) ∧
    (treeToParsedList cs).map ParsedElement.name = elemChildNames cs ∧
    (∀ m : String,
      firstChildNamed m (closeFrame
        (Frame.mk (lowerName n) a (directTexts cs) (treeToParsedList cs))) =
      (childrenNamed m (closeFrame
        (Frame.mk (lowerName n) a (directTexts cs)
          (treeToParsedList cs)))).head?) := by
  refine ⟨?_, treeToParsedList_names cs, fun m => rfl⟩
  simp only [execSeg, stepOpen, initState]
  rw [if_pos (by simp [h])]
  have hrun := execSeg_serializeList_tracked schema cs
    ⟨lowerName n, a, "", []⟩ [] 1 (by omega)
  simpa [String.empty_append] using hrun

/-- C8 (amended) witness: concrete record tag and mixed content, with the
case-folded root hypothesis discharged. -/
theorem context_children_flat_witness :
    lowerName dupSchema.rootElement = lowerName "R" ∧
    execSeg dupSchema initState
        (XmlEvent.openTag "R" [] :: serializeList sampleNodes) =
      ([], ⟨[Frame.mk (lowerName "R") [] (directTexts sampleNodes)
              (treeToParsedList sampleNodes)], some 1⟩) :=
  ⟨by decide,
   (context_children_flat dupSchema "R" [] sampleNodes (by decide)).1⟩

/-- C9: mergeDocumentHeader leaves every toy field other than date and author
unchanged; when the header carries neither date nor author the toy is
returned unchanged; and when the header carries a date or an author, that
header value is present in the output, overwriting any same-named value the
toy itself carried. -/
theorem merge_header_frame (h : DocumentHeader) (t : Toy) :
    (mergeDocumentHeader h t).uuid = t.uuid ∧
    (mergeDocumentHeader h t).name = t.name ∧
    (mergeDocumentHeader h t).color = t.color ∧
    (mergeDocumentHeader h t).manufacturer = t.manufacturer ∧
    (mergeDocumentHeader h t).store = t.store ∧
    (mergeDocumentHeader h t).comments = t.comments ∧
    (h.date = none ∧ h.author = none → mergeDocumentHeader h t = t) ∧
    (∀ d, h.date = some d → (mergeDocumentHeader h t).date = some d) ∧
    (∀ a, h.author = some a → (mergeDocumentHeader h t).author = some a) := by
  obtain ⟨hd, ha⟩ := h
  cases hd <;> cases ha <;> simp [mergeDocumentHeader]

/-- C9 witness: a header carrying only a date overwrites the toy's own date
and leaves its name unchanged. -/
theorem merge_header_frame_witness :
    (mergeDocumentHeader sampleHeader sampleToy).name = sampleToy.name ∧
    (mergeDocumentHeader sampleHeader sampleToy).date = some "2024-01-01" :=
  ⟨(merge_header_frame sampleHeader sampleToy).2.1,
   (merge_header_frame sampleHeader sampleToy).2.2.2.2.2.2.2.1
     "2024-01-01" rfl⟩

theorem execCount_append (a b : List XmlEvent) (s : CountState) :
    execCount s (a ++ b) = execCount (execCount s a) b := by
  simp [execCount, List.foldl_append]

theorem runCount_append (pre evs : List XmlEvent) (h : noTerminal pre = true) :
    ∀ s : CountState,
      runCount s (pre ++ evs) = runCount (execCount s pre) evs := by
  induction pre with
  | nil => intro s; simp [execCount]
  | cons ev rest ih =>
    have hrest : noTerminal rest = true := by
      simp [noTerminal, List.all_cons] at h
      simpa [noTerminal] using h.2
    have hev : isTerminal ev = false := by
      simp [noTerminal, List.all_cons] at h
      simpa using h.1
    intro s
    cases ev with
    | openTag nm attrs =>
      simpa [runCount, execCount, countStep] using ih hrest (countOpen s nm)
    | text c =>
      simpa [runCount, execCount, countStep] using ih hrest (countText s c)
    | closeTag nm =>
      simpa [runCount, execCount, countStep] using ih hrest (countClose s nm)
    | errorEv c => simp [isTerminal] at hev
    | endEv => simp [isTerminal] at hev

theorem noTerminal_serializeList :
    ∀ cs : List XmlNode, noTerminal (serializeList cs) = true
  | [] => by simp [serializeList, noTerminal]
  | XmlNode.textNode c :: xs => by
    have ih := noTerminal_serializeList xs
    simp only [serializeList, serializeNode, List.singleton_append, noTerminal,
      List.all_cons, isTerminal, Bool.not_false, Bool.true_and] at ih ⊢
    exact ih
  | XmlNode.elem n a cs2 :: xs => by
    have ih1 := noTerminal_serializeList cs2
    have ih2 := noTerminal_serializeList xs
    simp only [serializeList, serializeNode, List.cons_append, noTerminal,
      List.all_cons, List.all_append, isTerminal, Bool.not_false,
      Bool.true_and, Bool.and_eq_true] at ih1 ih2 ⊢
    exact ⟨⟨ih1, by simp⟩, ih2⟩
termination_by cs => sizeOf cs

theorem countOpen_deep (s : CountState) (n : String) (hdepth : 1 ≤ s.depth) :
    countOpen s n = { s with depth := s.depth + 1 } := by
  have h0 : ¬ (s.depth + 1 = 0) := by omega
  have h1 : ¬ (s.depth + 1 = 1) := by omega
  simp [countOpen, h0, h1]

theorem countClose_deep (s : CountState) (n : String)
    (hroot : s.insideRoot = true) (hdepth : 2 ≤ s.depth) :
    countClose s n = { s with depth := s.depth - 1 } := by
  have h1 : ¬ (s.depth = 1) := by omega
  have h2 : ¬ (s.depth - 1 < 0) := by omega
  simp [countClose, h1, h2, hroot]

theorem execCount_deep :
    ∀ (cs : List XmlNode) (d : Int) (cnt : Nat) (col : Option String)
      (ht : String) (hd : DocumentHeader), 1 ≤ d →
      execCount ⟨d, cnt, true, col, ht, hd⟩ (serializeList cs) =
        ⟨d, cnt, true, col,
         if col.isSome then ht ++ listText cs else ht, hd⟩
  | [], d, cnt, col, ht, hd, _ => by
    cases col <;>
      simp [serializeList, execCount, listText, String.append_empty]
  | XmlNode.textNode c :: xs, d, cnt, col, ht, hd, hdepth => by
    have hstep :
        execCount ⟨d, cnt, true, col, ht, hd⟩
            (serializeList (XmlNode.textNode c :: xs)) =
          execCount (countText ⟨d, cnt, true, col, ht, hd⟩ c)
            (serializeList xs) := by
      simp [serializeList, serializeNode, execCount, countStep]
    rw [hstep]
    cases col with
    | none =>
      rw [show countText ⟨d, cnt, true, none, ht, hd⟩ c =
            ⟨d, cnt, true, none, ht, hd⟩ from by simp [countText]]
      rw [execCount_deep xs d cnt none ht hd hdepth]
      simp
    | some tag =>
      rw [show countText ⟨d, cnt, true, some tag, ht, hd⟩ c =
            ⟨d, cnt, true, some tag, ht ++ c, hd⟩ from by simp [countText]]
      rw [execCount_deep xs d cnt (some tag) (ht ++ c) hd hdepth]
      simp [listText, nodeText, String.append_assoc]
  | XmlNode.elem n a cs2 :: xs, d, cnt, col, ht, hd, hdepth => by
    have hsplit :
        execCount ⟨d, cnt, true, col, ht, hd⟩
            (serializeList (XmlNode.elem n a cs2 :: xs)) =
          execCount (countOpen ⟨d, cnt, true, col, ht, hd⟩ n)
            (serializeList cs2 ++
              (XmlEvent.closeTag n :: serializeList xs)) := by
      simp [serializeList, serializeNode, execCount, countStep,
        List.append_assoc]
    rw [hsplit, countOpen_deep _ n (by exact hdepth)]
    have hmk : ({ (⟨d, cnt, true, col, ht, hd⟩ : CountState) with
        depth := d + 1 } : CountState) = ⟨d + 1, cnt, true, col, ht, hd⟩ := rfl
    rw [hmk, execCount_append,
      execCount_deep cs2 (d + 1) cnt col ht hd (by omega)]
    cases col with
    | none =>
      have hclosestep :
          execCount ⟨d + 1, cnt, true, none, ht, hd⟩
              (XmlEvent.closeTag n :: serializeList xs) =
            execCount (countClose ⟨d + 1, cnt, true, none, ht, hd⟩ n)
              (serializeList xs) := by
        simp [execCount, countStep]
      simp only [Option.isSome_none, Bool.false_eq_true, if_false]
      rw [hclosestep, countClose_deep _ n rfl (by simp; omega)]
      have hmk2 : ({ (⟨d + 1, cnt, true, none, ht, hd⟩ : CountState) with
          depth := d + 1 - 1 } : CountState) =
          ⟨d, cnt, true, none, ht, hd⟩ := by
        simp
      rw [hmk2, execCount_deep xs d cnt none ht hd hdepth]
      simp
    | some tag =>
      have hclosestep :
          execCount ⟨d + 1, cnt, true, some tag, ht ++ listText cs2, hd⟩
              (XmlEvent.closeTag n :: serializeList xs) =
            execCount
              (countClose ⟨d + 1, cnt, true, some tag, ht ++ listText cs2, hd⟩ n)
              (serializeList xs) := by
        simp [execCount, countStep]
      simp only [Option.isSome_some, if_true]
      rw [hclosestep, countClose_deep _ n rfl (by simp; omega)]
      have hmk2 : ({ (⟨d + 1, cnt, true, some tag,
          ht ++ listText cs2, hd⟩ : CountState) with
          depth := d + 1 - 1 } : CountState) =
          ⟨d, cnt, true, some tag, ht ++ listText cs2, hd⟩ := by
        simp
      rw [hmk2,
        execCount_deep xs d cnt (some tag) (ht ++ listText cs2) hd hdepth]
      simp [listText, nodeText, String.append_assoc]
termination_by cs _ _ _ _ _ _ => sizeOf cs

theorem headerAssigned_date (hd : DocumentHeader) :
    headerAssigned hd "date" = hd.date.isSome := by
  rw [headerAssigned, if_pos rfl]

theorem headerAssigned_author (hd : DocumentHeader) :
    headerAssigned hd "author" = hd.author.isSome := by
  rw [headerAssigned, if_neg (by decide), if_pos rfl]

theorem setHeaderField_date (hd : DocumentHeader) (v : String) :
    setHeaderField hd "date" v = ⟨some v, hd.author⟩ := by
  rw [setHeaderField]
  rw [if_pos (show ("date" : String) = "date" from rfl)]
  rw [if_neg (show ¬ ("date" : String) = "author" by decide)]

theorem setHeaderField_author (hd : DocumentHeader) (v : String) :
    setHeaderField hd "author" v = ⟨hd.date, some v⟩ := by
  rw [setHeaderField]
  rw [if_neg (show ¬ ("author" : String) = "date" by decide)]
  rw [if_pos (show ("author" : String) = "author" from rfl)]

theorem orFirst_none_right (a : Option String) : orFirst a none = a := by
  cases a <;> rfl

theorem orFirst_some (v : String) (b : Option String) :
    orFirst (some v) b = some v := rfl

theorem orFirst_none_left (b : Option String) : orFirst none b = b := rfl

theorem isHeaderElement_cases (t : String) (h : isHeaderElement t = true) :
    t = "date" ∨ t = "author" := by
  simpa [isHeaderElement] using h

theorem isHeaderElement_false (t : String) (h : isHeaderElement t = false) :
    t ≠ "date" ∧ t ≠ "author" := by
  simpa [isHeaderElement] using h

theorem countOpen_level1 (cnt : Nat) (hd : DocumentHeader) (n : String) :
    countOpen ⟨0, cnt, true, none, "", hd⟩ n =
      ⟨1, (if lowerName n == "toy" then cnt + 1 else cnt), true,
       (if isHeaderElement (lowerName n) &&
           !(headerAssigned hd (lowerName n))
        then some (lowerName n) else none), "", hd⟩ := by
  have h0 : ¬ ((0 : Int) + 1 = 0) := by omega
  simp [countOpen, h0]

theorem countClose_level1_collect (cnt : Nat) (hd : DocumentHeader)
    (ht : String) (n : String) :
    countClose ⟨1, cnt, true, some (lowerName n), ht, hd⟩ n =
      ⟨0, cnt, true, none, "",
       setHeaderField hd (lowerName n) ht.trim⟩ := by
  norm_num [countClose]

theorem countClose_level1_plain (cnt : Nat) (hd : DocumentHeader)
    (ht : String) (n : String) :
    countClose ⟨1, cnt, true, none, ht, hd⟩ n =
      ⟨0, cnt, true, none, ht, hd⟩ := by
  norm_num [countClose]

theorem countClose_root (cnt : Nat) (hd : DocumentHeader) (n : String) :
    countClose ⟨0, cnt, true, none, "", hd⟩ n =
      ⟨-1, cnt, false, none, "", hd⟩ := by
  norm_num [countClose]

theorem execCount_level1 :
    ∀ (ns : List XmlNode) (cnt : Nat) (hd : DocumentHeader),
      execCount ⟨0, cnt, true, none, "", hd⟩ (serializeList ns) =
        ⟨0, cnt + firstLevelToyCount ns, true, none, "",
         ⟨orFirst hd.date
            ((firstElemNamed "date" ns).map fun nd => (nodeText nd).trim),
          orFirst hd.author
            ((firstElemNamed "author" ns).map fun nd =>
              (nodeText nd).trim)⟩⟩ := by
  intro ns
  induction ns with
  | nil =>
    intro cnt hd
    simp [serializeList, execCount, firstLevelToyCount, firstElemNamed,
      orFirst_none_right]
  | cons x xs ih =>
    intro cnt hd
    cases x with
    | textNode c =>
      have hstep : execCount ⟨0, cnt, true, none, "", hd⟩
          (serializeList (XmlNode.textNode c :: xs)) =
          execCount ⟨0, cnt, true, none, "", hd⟩ (serializeList xs) := by
        simp [serializeList, serializeNode, execCount, countStep, countText]
      rw [hstep, ih cnt hd]
      simp [firstLevelToyCount, isToyElem, firstElemNamed, isElemNamed]
    | elem n a cs2 =>
      have hsplit : execCount ⟨0, cnt, true, none, "", hd⟩
          (serializeList (XmlNode.elem n a cs2 :: xs)) =
          execCount (countOpen ⟨0, cnt, true, none, "", hd⟩ n)
            (serializeList cs2 ++
              (XmlEvent.closeTag n :: serializeList xs)) := by
        simp [serializeList, serializeNode, execCount, countStep,
          List.append_assoc]
      rw [hsplit, countOpen_level1]
      by_cases hH : isHeaderElement (lowerName n) = true
      · rcases isHeaderElement_cases _ hH with h | h
        · -- a date child
          have hne : (lowerName n == "toy") = false := by
            rw [h]; decide
          have hna : (lowerName n == "author") = false := by
            rw [h]; decide
          have hnd : (lowerName n == "date") = true := by
            rw [h]; decide
          rw [hne]
          simp only [Bool.false_eq_true, if_false]
          cases hv : hd.date with
          | none =>
            have hcond : (isHeaderElement (lowerName n) &&
                !(headerAssigned hd (lowerName n))) = true := by
              rw [h, headerAssigned_date, hv]
              decide
            rw [hcond]
            simp only [if_true]
            rw [execCount_append,
              execCount_deep cs2 1 cnt (some (lowerName n)) "" hd (by omega)]
            simp only [Option.isSome_some, if_true, String.empty_append]
            have hclosestep :
                execCount ⟨1, cnt, true, some (lowerName n),
                    listText cs2, hd⟩
                  (XmlEvent.closeTag n :: serializeList xs) =
                execCount (countClose ⟨1, cnt, true, some (lowerName n),
                    listText cs2, hd⟩ n) (serializeList xs) := by
              simp [execCount, countStep]
            rw [hclosestep, countClose_level1_collect]
            rw [h, setHeaderField_date]
            rw [ih cnt ⟨some (listText cs2).trim, hd.author⟩]
            simp [firstLevelToyCount, isToyElem, hne, firstElemNamed,
              isElemNamed, hnd, hna, hv, orFirst, nodeText]
          | some v =>
            have hcond : (isHeaderElement (lowerName n) &&
                !(headerAssigned hd (lowerName n))) = false := by
              rw [h, headerAssigned_date, hv]
              simp
            rw [hcond]
            simp only [Bool.false_eq_true, if_false]
            rw [execCount_append,
              execCount_deep cs2 1 cnt none "" hd (by omega)]
            simp only [Option.isSome_none, Bool.false_eq_true, if_false]
            have hclosestep :
                execCount ⟨1, cnt, true, none, "", hd⟩
                  (XmlEvent.closeTag n :: serializeList xs) =
                execCount (countClose ⟨1, cnt, true, none, "", hd⟩ n)
                  (serializeList xs) := by
              simp [execCount, countStep]
            rw [hclosestep, countClose_level1_plain, ih cnt hd]
            simp [firstLevelToyCount, isToyElem, hne, firstElemNamed,
              isElemNamed, hnd, hna, hv, orFirst]
        · -- an author child
          have hne : (lowerName n == "toy") = false := by
            rw [h]; decide
          have hna : (lowerName n == "author") = true := by
            rw [h]; decide
          have hnd : (lowerName n == "date") = false := by
            rw [h]; decide
          rw [hne]
          simp only [Bool.false_eq_true, if_false]
          cases hv : hd.author with
          | none =>
            have hcond : (isHeaderElement (lowerName n) &&
                !(headerAssigned hd (lowerName n))) = true := by
              rw [h, headerAssigned_author, hv]
              decide
            rw [hcond]
            simp only [if_true]
            rw [execCount_append,
              execCount_deep cs2 1 cnt (some (lowerName n)) "" hd (by omega)]
            simp only [Option.isSome_some, if_true, String.empty_append]
            have hclosestep :
                execCount ⟨1, cnt, true, some (lowerName n),
                    listText cs2, hd⟩
                  (XmlEvent.closeTag n :: serializeList xs) =
                execCount (countClose ⟨1, cnt, true, some (lowerName n),
                    listText cs2, hd⟩ n) (serializeList xs) := by
              simp [execCount, countStep]
            rw [hclosestep, countClose_level1_collect]
            rw [h, setHeaderField_author]
            rw [ih cnt ⟨hd.date, some (listText cs2).trim⟩]
            simp [firstLevelToyCount, isToyElem, hne, firstElemNamed,
              isElemNamed, hnd, hna, hv, orFirst, nodeText]
          | some v =>
            have hcond : (isHeaderElement (lowerName n) &&
                !(headerAssigned hd (lowerName n))) = false := by
              rw [h, headerAssigned_author, hv]
              simp
            rw [hcond]
            simp only [Bool.false_eq_true, if_false]
            rw [execCount_append,
              execCount_deep cs2 1 cnt none "" hd (by omega)]
            simp only [Option.isSome_none, Bool.false_eq_true, if_false]
            have hclosestep :
                execCount ⟨1, cnt, true, none, "", hd⟩
                  (XmlEvent.closeTag n :: serializeList xs) =
                execCount (countClose ⟨1, cnt, true, none, "", hd⟩ n)
                  (serializeList xs) := by
              simp [execCount, countStep]
            rw [hclosestep, countClose_level1_plain, ih cnt hd]
            simp [firstLevelToyCount, isToyElem, hne, firstElemNamed,
              isElemNamed, hnd, hna, hv, orFirst]
      · -- not a header element
        have hbool : isHeaderElement (lowerName n) = false := by
          revert hH
          cases isHeaderElement (lowerName n) <;> simp
        obtain ⟨hnd, hna⟩ := isHeaderElement_false _ hbool
        rw [hbool]
        simp only [Bool.false_and, Bool.false_eq_true, if_false]
        rw [execCount_append,
          execCount_deep cs2 1
            (if (lowerName n == "toy") = true then cnt + 1 else cnt)
            none "" hd (by omega)]
        simp only [Option.isSome_none, Bool.false_eq_true, if_false]
        have hclosestep : ∀ cnt2 : Nat,
            execCount ⟨1, cnt2, true, none, "", hd⟩
              (XmlEvent.closeTag n :: serializeList xs) =
            execCount (countClose ⟨1, cnt2, true, none, "", hd⟩ n)
              (serializeList xs) := by
          intro cnt2
          simp [execCount, countStep]
        rw [hclosestep, countClose_level1_plain,
          ih (if (lowerName n == "toy") = true then cnt + 1 else cnt) hd]
        cases htoy : (lowerName n == "toy") with
        | true =>
          simp only [htoy, if_true]
          simp [firstLevelToyCount, isToyElem, htoy, firstElemNamed,
            isElemNamed, hnd, hna]
          omega
        | false =>
          simp only [htoy, Bool.false_eq_true, if_false]
          simp [firstLevelToyCount, isToyElem, htoy, firstElemNamed,
            isElemNamed, hnd, hna]

/-- C10: for every well-formed document, countFirstLevelToysAndHeader
resolves with firstLevelToyCount equal to the number of case-insensitively
toy-named elements occurring as direct children of the document root (deeper
toy elements are not counted), and with header date and author equal to the
trimmed text collected for the first direct child of the root with that name,
each absent when no such direct child exists; on a tokenizer error the
promise rejects with that error. -/
theorem count_header_correct (rootName : String) (attrs : Attrs)
    (content : List XmlNode) :
    countFirstLevelToysAndHeader
        (serializeNode (XmlNode.elem rootName attrs content) ++
          [XmlEvent.endEv]) =
      Except.ok (firstLevelToyCount content, headerOf content) ∧
    (∀ pre c suf, noTerminal pre = true →
      countFirstLevelToysAndHeader (pre ++ XmlEvent.errorEv c :: suf) =
        Except.error c) := by
  constructor
  · rw [countFirstLevelToysAndHeader, serializeNode]
    have hflat : (XmlEvent.openTag rootName attrs ::
        (serializeList content ++ [XmlEvent.closeTag rootName])) ++
        [XmlEvent.endEv] =
        XmlEvent.openTag rootName attrs ::
          (serializeList content ++
            [XmlEvent.closeTag rootName, XmlEvent.endEv]) := by
      simp
    rw [hflat]
    have hopen : countOpen initCountState rootName =
        ⟨0, 0, true, none, "", ⟨none, none⟩⟩ := by
      norm_num [countOpen, initCountState]
    have hstep : runCount initCountState
        (XmlEvent.openTag rootName attrs ::
          (serializeList content ++
            [XmlEvent.closeTag rootName, XmlEvent.endEv])) =
        runCount ⟨0, 0, true, none, "", ⟨none, none⟩⟩
          (serializeList content ++
            [XmlEvent.closeTag rootName, XmlEvent.endEv]) := by
      simp [runCount, countStep, hopen]
    rw [hstep, runCount_append _ _ (noTerminal_serializeList content),
      execCount_level1 content 0 ⟨none, none⟩]
    simp [runCount, countStep, countClose_root, orFirst_none_left, headerOf]
  · intro pre c suf h
    rw [countFirstLevelToysAndHeader,
      runCount_append pre (XmlEvent.errorEv c :: suf) h]
    simp [runCount]

/-- C10 witness: a concrete document whose root holds a padded date child,
two toy children in different letter cases with a deeper nested toy, and a
second date child; plus a concrete error stream. -/
theorem count_header_correct_witness :
    countFirstLevelToysAndHeader
        (serializeNode (XmlNode.elem "toys" [] sampleTree) ++
          [XmlEvent.endEv]) =
      Except.ok (firstLevelToyCount sampleTree, headerOf sampleTree) ∧
    countFirstLevelToysAndHeader
        ([] ++ XmlEvent.errorEv "bad markup" :: []) =
      Except.error "bad markup" :=
  ⟨(count_header_correct "toys" [] sampleTree).1,
   (count_header_correct "toys" [] sampleTree).2 [] "bad markup" []
     (by decide)⟩

end XmlParserModel
